import Mathlib

/-
  Verification development for the tt-smi chip management tool.

  Shallow embedding of the core logic of the repository:
  telemetry conversion and firmware-version decoding
  (tt_smi/tt_smi_backend.py, tt_utils_common/utils_common.py),
  the register map interpreter (tt_smi/registers.py),
  the Grayskull tensix reset sequencer (tt_smi/gs_tensix_reset.py),
  and the chassis reset orchestration (tt_smi/resets/wh_resets.py).

  Machine integers are modelled as Nat with explicit masking where the
  Python code masks; Python big-int semantics means no implicit wrapping.
  Fallible Python code (raise) is modelled with Except or Option.
-/

set_option maxRecDepth 100000

namespace TTSMI

/-! ### Telemetry conversion, from tt_smi/tt_smi_backend.py

Python source (TTSMIBackend.convert_signed_16_16_to_float):
  return (value >> 16) + (value & 0xFFFF) / 65536.0

On a non-negative Python int, value >> 16 keeps bits 31:16 unshifted and
unsigned; there is no sign extension.  All quantities involved are exactly
representable in an IEEE double (integer part below two to the 16, fraction a
dyadic rational with denominator two to the 16), so the rational result below
is exactly the float the Python code computes. -/

def convert_signed_16_16_to_float (value : ℕ) : ℚ :=
  ((value >>> 16 : ℕ) : ℚ) + ((value &&& 0xFFFF : ℕ) : ℚ) / 65536

/-- The mathematically-signed Q16.16 reading of a 32-bit word, as the spec
describes it: bits 31:16 as a signed 16-bit value plus bits 15:0 over 65536.
This is the spec-side definition used to compare against the code. -/
def signed_16_16_spec (value : ℕ) : ℚ :=
  (if (value >>> 16) &&& 0xFFFF < 32768
    then (((value >>> 16) &&& 0xFFFF : ℕ) : ℚ)
    else (((value >>> 16) &&& 0xFFFF : ℕ) : ℚ) - 65536)
  + ((value &&& 0xFFFF : ℕ) : ℚ) / 65536

/-! ### Firmware version decoders, from tt_utils_common/utils_common.py -/

/-- Python exception raised by an explicit raise statement. -/
inductive PyErr
  | valueError
deriving DecidableEq, Repr

/-- From utils_common.hex_to_semver.  Unlike the three decoders below, this
one raises ValueError for the sentinel values 0 and 0xFFFFFFFF. -/
def hex_to_semver (hexsemver : ℕ) : Except PyErr String :=
  if hexsemver = 0 ∨ hexsemver = 0xFFFFFFFF then
    Except.error PyErr.valueError
  else
    Except.ok (Nat.repr ((hexsemver >>> 16) &&& 0xFF) ++ "." ++
      Nat.repr ((hexsemver >>> 8) &&& 0xFF) ++ "." ++
      Nat.repr (hexsemver &&& 0xFF))

/-- From utils_common.hex_to_semver_eth.  Total: the Python body can only
raise via the explicit branch, which returns the string instead. -/
def hex_to_semver_eth (hexsemver : ℕ) : String :=
  if hexsemver = 0 ∨ hexsemver = 0xFFFFFF then "N/A"
  else
    Nat.repr ((hexsemver >>> 16) &&& 0xFF) ++ "." ++
      Nat.repr ((hexsemver >>> 12) &&& 0xF) ++ "." ++
      Nat.repr (hexsemver &&& 0xFFF)

/-- From utils_common.hex_to_semver_m3_fw (the 4-byte semver packing). -/
def hex_to_semver_m3_fw (hexsemver : ℕ) : String :=
  if hexsemver = 0 ∨ hexsemver = 0xFFFFFFFF then "N/A"
  else
    Nat.repr ((hexsemver >>> 24) &&& 0xFF) ++ "." ++
      Nat.repr ((hexsemver >>> 16) &&& 0xFF) ++ "." ++
      Nat.repr ((hexsemver >>> 8) &&& 0xFF) ++ "." ++
      Nat.repr (hexsemver &&& 0xFF)

/-- From utils_common.hex_to_date (the date packing). -/
def hex_to_date (hexdate : ℕ) (include_time : Bool := true) : String :=
  if hexdate = 0 ∨ hexdate = 0xFFFFFFFF then "N/A"
  else
    let year := ((hexdate >>> 28) &&& 0xF) + 2020
    let month := (hexdate >>> 24) &&& 0xF
    let day := (hexdate >>> 16) &&& 0xFF
    let hour := (hexdate >>> 8) &&& 0xFF
    let minute := hexdate &&& 0xFF
    let date := Nat.repr year ++ "-" ++ Nat.repr month ++ "-" ++ Nat.repr day
    if include_time then date ++ " " ++ Nat.repr hour ++ ":" ++ Nat.repr minute
    else date

/-! ### Register map interpreter, from tt_smi/registers.py

The register schema is modelled post-parse: a register definition carries the
fields the yaml supplies, with Option for the optional keys (a missing key
read by the Python code is a KeyError).  A register path
space.register[idx].field is modelled after the string has been split: the
register name, the optional array index, and the optional field name.

The injected 32-bit reader and writer (the bus transport, out of scope for
the repository and specified only at its interface) are modelled as a memory
from addresses to 32-bit words plus a log of the bus operations performed:
the reader returns the word at the address, the writer stores the value
truncated to 32 bits, as the read32/write32 capability interface declares. -/

/-- Errors raised by the register interpreter: keyError models a Python
KeyError or failed assert on a missing dictionary key, runtimeError an
explicit RuntimeError raise. -/
inductive RegError
  | keyError
  | runtimeError
deriving DecidableEq, Repr

/-- One field definition from the yaml: field_info with field_info[1] the
msb, field_info[2] the lsb, and, when the list has more than four entries,
field_info[3] a byte offset. -/
structure FieldInfo where
  msb : ℕ
  lsb : ℕ
  offset : Option ℕ
deriving DecidableEq, Repr

/-- One register definition from the yaml after load: Address, Regsize
(patched in from the file-scope Regsize), optional ArraySize and
AddressIncrement, and the Fields mapping. -/
structure RegInfo where
  address : ℕ
  regsize : ℕ
  arraySize : Option ℕ
  addressIncrement : Option ℕ
  fields : List (String × FieldInfo)
deriving DecidableEq, Repr

/-- A parsed register path: sections[1] split into name and optional [index],
and the optional sections[2] field name. -/
structure PathQuery where
  regName : String
  arrayIndex : Option ℕ
  fieldName : Option String
deriving DecidableEq, Repr

/-- Python data & ~mask for non-negative data: the bits of data outside
mask.  Written as xor with the overlap, which is bitwise identical to
and-not: each bit is data AND (NOT mask). -/
def pyAndNot (data mask : ℕ) : ℕ := data ^^^ (data &&& mask)

/-- From Registers.get_mask_for_regsize: 32 and 64 are the only supported
register sizes. -/
def get_mask_for_regsize (regsize : ℕ) : Except RegError ℕ :=
  if regsize = 32 then Except.ok 0xFFFFFFFF
  else if regsize = 64 then Except.ok 0xFFFFFFFFFFFFFFFF
  else Except.error RegError.runtimeError

/-- From Registers.get_mask_and_shift:
mask = get_mask_for_regsize(regsize) >> (regsize - 1 - (msb - lsb)),
shift = lsb.  Subtraction is Nat subtraction; for the schemas the loader
accepts (msb between lsb and regsize - 1) it agrees with Python. -/
def get_mask_and_shift (fi : FieldInfo) (regsize : ℕ) : Except RegError (ℕ × ℕ) :=
  match get_mask_for_regsize regsize with
  | Except.error e => Except.error e
  | Except.ok full => Except.ok (full >>> (regsize - 1 - (fi.msb - fi.lsb)), fi.lsb)

/-- The sections-greater-than-2 branch of Registers.get_path_info: resolve
the optional field name of the path to (mask, shift, byte offset); without a
field the mask covers the whole register with shift and offset 0. -/
def resolve_field_part (reg : RegInfo) (full : ℕ) (fieldName : Option String) :
    Except RegError (ℕ × ℕ × ℕ) :=
  match fieldName with
  | none => Except.ok (full, 0, 0)
  | some fname =>
    match reg.fields.lookup fname with
    | none => Except.error RegError.keyError
    | some fi =>
      match get_mask_and_shift fi reg.regsize with
      | Except.error e => Except.error e
      | Except.ok ms => Except.ok (ms.1, ms.2, fi.offset.getD 0)

/-- From Registers.get_path_info, for a path with at least a register
section.  spaceOffset is the address-space offset; regs the loaded register
table of the space.  Returns (addr, mask, shift, reg_info).  The field part
is resolved before the array-index check, and the field byte offset is added
after the array increment, as in the source.  An omitted array index is
index 0, and the range check runs only when the index is positive. -/
def get_path_info (spaceOffset : ℕ) (regs : List (String × RegInfo))
    (q : PathQuery) : Except RegError (ℕ × ℕ × ℕ × RegInfo) :=
  match regs.lookup q.regName with
  | none => Except.error RegError.keyError
  | some reg =>
    match get_mask_for_regsize reg.regsize with
    | Except.error e => Except.error e
    | Except.ok full =>
      match resolve_field_part reg full q.fieldName with
      | Except.error e => Except.error e
      | Except.ok (mask, shift, offset) =>
        let array_index := q.arrayIndex.getD 0
        let addr0 := spaceOffset + reg.address
        if array_index > 0 then
          match reg.arraySize with
          | none => Except.error RegError.keyError
          | some asz =>
            if array_index ≥ asz then Except.error RegError.runtimeError
            else
              match reg.addressIncrement with
              | none => Except.error RegError.keyError
              | some inc =>
                Except.ok (addr0 + array_index * inc + offset, mask, shift, reg)
        else Except.ok (addr0 + offset, mask, shift, reg)

/-- One operation performed through the injected reader or writer. -/
inductive BusOp
  | read (addr : ℕ)
  | write (addr : ℕ) (value : ℕ)
deriving DecidableEq, Repr

/-- The bus transport behind the injected reader and writer: a 32-bit word
memory and the log of operations.  Modelled from the capability interface
the spec requires of the collaborator: read32 returns a u32, write32 stores
a u32. -/
structure Bus where
  mem : ℕ → ℕ
  log : List BusOp

def busRead (b : Bus) (addr : ℕ) : ℕ × Bus :=
  (b.mem addr % 2 ^ 32, { b with log := b.log ++ [BusOp.read addr] })

def busWrite (b : Bus) (addr v : ℕ) : Bus :=
  { mem := fun a => if a = addr then v % 2 ^ 32 else b.mem a,
    log := b.log ++ [BusOp.write addr v] }

def BusOp.isRead : BusOp → Bool
  | BusOp.read _ => true
  | BusOp.write _ _ => false

/-- From Registers.read32: resolve the path, invoke the reader once at the
address, shift right to drop the lower bits, mask to the field width.  The
bus state is returned alongside so the operation log is observable; on an
exception the bus is whatever it was when the exception was raised. -/
def read32 (spaceOffset : ℕ) (regs : List (String × RegInfo)) (q : PathQuery)
    (b : Bus) : Except RegError ℕ × Bus :=
  match get_path_info spaceOffset regs q with
  | Except.error e => (Except.error e, b)
  | Except.ok (addr, mask, shift, _) =>
    let rb := busRead b addr
    (Except.ok ((rb.1 >>> shift) &&& mask), rb.2)

/-- From Registers.write32: resolve the path, raise if the data does not fit
the mask, then either write directly (field covers the whole register) or
read-modify-write (clear the field bits in the current word, or in the
shifted data). -/
def write32 (spaceOffset : ℕ) (regs : List (String × RegInfo)) (q : PathQuery)
    (data : ℕ) (b : Bus) : Except RegError Unit × Bus :=
  match get_path_info spaceOffset regs q with
  | Except.error e => (Except.error e, b)
  | Except.ok (addr, mask, shift, reg) =>
    if pyAndNot data mask ≠ 0 then (Except.error RegError.runtimeError, b)
    else
      match get_mask_for_regsize reg.regsize with
      | Except.error e => (Except.error e, b)
      | Except.ok full =>
        if mask ≠ full then
          let rb := busRead b addr
          let cleared := pyAndNot rb.1 (mask <<< shift)
          (Except.ok (), busWrite rb.2 addr (cleared ||| (data <<< shift)))
        else (Except.ok (), busWrite b addr data)

/-! ### The helper Register class, from tt_smi/registers.py lines 43-120

A standalone register value holder: bit_count, a field table, and the data
slot set by _set.  Its write_fields takes keyword arguments; the special
key __init is modelled as a separate Option argument and the remaining
keywords as an association list. -/

structure HReg where
  bit_count : ℕ
  fields : List (String × FieldInfo)
  data : Option ℕ
deriving DecidableEq, Repr

/-- From Register._get_mask_and_shift: mask = 0xFFFFFFFF >> (31 - (msb - lsb)). -/
def hreg_get_mask_and_shift (fi : FieldInfo) : ℕ × ℕ :=
  (0xFFFFFFFF >>> (31 - (fi.msb - fi.lsb)), fi.lsb)

/-- The loop body of Register.write_fields: accumulate new_val over the
supplied fields, raising on an unknown field or an oversized value.  The
source never updates total_mask inside this loop. -/
def hreg_write_fields_loop (fields : List (String × FieldInfo)) :
    List (String × ℕ) → ℕ → Except RegError ℕ
  | [], new_val => Except.ok new_val
  | (f, f_value) :: rest, new_val =>
    match fields.lookup f with
    | none => Except.error RegError.runtimeError
    | some fi =>
      let ms := hreg_get_mask_and_shift fi
      let cleared := pyAndNot new_val (ms.1 <<< ms.2)
      if f_value &&& ms.1 ≠ f_value then Except.error RegError.runtimeError
      else hreg_write_fields_loop fields rest (cleared ||| (f_value <<< ms.2))

/-- From Register.write_fields: init is the optional __init keyword; when it
is absent total_mask starts at 0 and, never being updated in the loop, the
final full-coverage check total_mask == 0xFFFFFFFF cannot pass. -/
def hreg_write_fields (r : HReg) (init : Option ℕ)
    (assigns : List (String × ℕ)) : Except RegError HReg :=
  let start : ℕ × ℕ :=
    match init with
    | some i => (i, 0xFFFFFFFF)
    | none => (0, 0)
  match hreg_write_fields_loop r.fields assigns start.1 with
  | Except.error e => Except.error e
  | Except.ok new_val =>
    if start.2 ≠ 0xFFFFFFFF then Except.error RegError.runtimeError
    else Except.ok { r with data := some new_val }

/-- From Register._get: raises when no data has been set. -/
def hreg_get (r : HReg) : Except RegError ℕ :=
  match r.data with
  | none => Except.error RegError.runtimeError
  | some d => Except.ok d

/-- From Register.rmw_fields: kwargs with __init set to _get(). -/
def hreg_rmw_fields (r : HReg) (assigns : List (String × ℕ)) :
    Except RegError HReg :=
  match hreg_get r with
  | Except.error e => Except.error e
  | Except.ok d => hreg_write_fields r (some d) assigns

/-! ### Concrete schema instances used to exercise the interpreter -/

/-- A bus whose memory is all zero and whose log is empty. -/
def bus0 : Bus := { mem := fun _ => 0, log := [] }

/-- A 64-bit register at address 0 with no fields, as produced by a yaml
entry with Regsize 64. -/
def regs64ex : List (String × RegInfo) :=
  [("R", { address := 0, regsize := 64, arraySize := none,
           addressIncrement := none, fields := [] })]

def q64ex : PathQuery := { regName := "R", arrayIndex := none, fieldName := none }

/-- A 32-bit array register with a three-bit field E at bits 3:1. -/
def regs32ex : List (String × RegInfo) :=
  [("C", { address := 64, regsize := 32, arraySize := some 4,
           addressIncrement := some 4,
           fields := [("E", { msb := 3, lsb := 1, offset := none })] })]

def q32ex : PathQuery := { regName := "C", arrayIndex := some 1, fieldName := some "E" }

/-- A 32-bit array register with two elements and no fields. -/
def regsW : List (String × RegInfo) :=
  [("S", { address := 16, regsize := 32, arraySize := some 2,
           addressIncrement := some 4, fields := [] })]

/-! ### Grid topology and harvesting, from tt_smi/gs_tensix_reset.py -/

def GRID_SIZE_X : ℕ := 13

def GRID_SIZE_Y : ℕ := 12

def NUM_TENSIX_X : ℕ := GRID_SIZE_X - 1

def PHYS_Y_TO_NOC_0_Y : List ℕ := [0, 11, 1, 10, 2, 9, 3, 8, 4, 7, 5, 6]

/-- From GSTensixReset._physical_to_routing. -/
def physical_to_routing (limit phys : ℕ) : ℕ :=
  if phys % 2 = 0 then phys / 2 else limit - 1 - phys / 2

/-- From the GSTensixReset constructor: the dictionary mapping routing
coordinates back to physical coordinates, built by enumerating the whole
grid.  The mapping per axis is a bijection, so every key is inserted once
and association-list lookup agrees with the Python dict. -/
def ROUTING_TO_PHYSICAL_TABLE : List ((ℕ × ℕ) × (ℕ × ℕ)) :=
  (List.range GRID_SIZE_Y).flatMap (fun phys_y =>
    (List.range GRID_SIZE_X).map (fun phys_x =>
      ((physical_to_routing GRID_SIZE_X phys_x,
        physical_to_routing GRID_SIZE_Y phys_y), (phys_x, phys_y))))

/-- Fuel-based binary length: bit_length_aux fuel x computes Python
x.bit_length() whenever fuel is at least x. -/
def bit_length_aux : ℕ → ℕ → ℕ
  | 0, _ => 0
  | fuel + 1, x => if x = 0 then 0 else bit_length_aux fuel (x / 2) + 1

/-- Python x.bit_length(). -/
def bit_length (x : ℕ) : ℕ := bit_length_aux x x

/-- From tt_utils_common int_to_bits (the copy in
tt_smi/tests/test_tensix_reset.py carries the same body):
list(filter(lambda b: x & (1 << b), range(x.bit_length()))). -/
def int_to_bits (x : ℕ) : List ℕ :=
  (List.range (bit_length x)).filter (fun b => x &&& (1 <<< b) ≠ 0)

/-- Number of set bits of a natural number. -/
def popcount (x : ℕ) : ℕ :=
  ((List.range (bit_length x)).filter (fun b => x.testBit b)).length

/-- From GSTensixReset.get_harvested_rows: the 20-bit fuse value splits
into 10 memory bits and 10 logic bits; a physical row is bad when either
bit is set (the OR, shifted by one because row 0 carries no tensix row
fuse); bad physical rows translate to NOC0 rows through the fixed table.
The Python frozenset is modelled as a Finset. -/
def get_harvested_rows (harvesting_fuses : ℕ) : Finset ℕ :=
  let bad_mem_bits := harvesting_fuses &&& 0x3FF
  let bad_logic_bits := (harvesting_fuses >>> 10) &&& 0x3FF
  let bad_row_bits := (bad_mem_bits ||| bad_logic_bits) <<< 1
  let bad_physical_rows := int_to_bits bad_row_bits
  (bad_physical_rows.map
    (fun y => PHYS_Y_TO_NOC_0_Y.getD (GRID_SIZE_Y - y - 1) 0)).toFinset

/-- The candidate non-edge rows of GSTensixReset.get_core_list. -/
def candidate_rows : List ℕ := [1, 2, 3, 4, 5, 7, 8, 9, 10, 11]

/-- From GSTensixReset.get_core_list: the cross product of the non-edge
columns 1..12 with the candidate rows not harvested, in product order. -/
def get_core_list (fuses : ℕ) : List (ℕ × ℕ) :=
  let harvested := get_harvested_rows fuses
  let good_rows := candidate_rows.filter (fun y => y ∉ harvested)
  (List.range' 1 (GRID_SIZE_X - 1)).flatMap (fun x => good_rows.map (fun y => (x, y)))

/-- The candidate rows as a Finset, for the spec-side description. -/
def candidate_rows_finset : Finset ℕ := {1, 2, 3, 4, 5, 7, 8, 9, 10, 11}

/-- Spec-side description of the enabled-core set: columns 1..12 crossed
with the non-edge candidate rows minus the harvested rows. -/
def claimed_core_set (fuses : ℕ) : Finset (ℕ × ℕ) :=
  Finset.Icc 1 12 ×ˢ (candidate_rows_finset \ get_harvested_rows fuses)

/-- From GSTensixReset.noc_loc_to_reset_mask: translate the NOC0 location
to physical coordinates through the table (total here; Python would raise
KeyError off the grid, and the table covers the whole grid), then
reset_bit_index = (phys_x - 1) * NUM_TENSIX_X + (phys_y - 1), split into a
word index and a one-bit mask. -/
def noc_loc_to_reset_mask (noc_x noc_y : ℕ) : ℕ × ℕ :=
  let pp := (ROUTING_TO_PHYSICAL_TABLE.lookup (noc_x, noc_y)).getD (0, 0)
  let reset_bit_index := (pp.1 - 1) * NUM_TENSIX_X + (pp.2 - 1)
  (reset_bit_index / 32, 1 <<< (reset_bit_index % 32))

/-- From GSTensixReset.all_tensix_reset_mask: fold the enabled cores into
an 8-word mask array, OR-ing each core's bit into its word. -/
def all_tensix_reset_mask (fuses : ℕ) : List ℕ :=
  (get_core_list fuses).foldl
    (fun acc c =>
      acc.set (noc_loc_to_reset_mask c.1 c.2).1
        (acc.getD (noc_loc_to_reset_mask c.1 c.2).1 0 |||
          (noc_loc_to_reset_mask c.1 c.2).2))
    (List.replicate 8 0)

/-- The full non-edge grid: columns 1..12 crossed with all candidate rows,
of which every enabled-core list is a sublist. -/
def full_grid_cores : List (ℕ × ℕ) :=
  (List.range' 1 (GRID_SIZE_X - 1)).flatMap
    (fun x => candidate_rows.map (fun y => (x, y)))

/-! ### The tensix reset sequence, from GSTensixReset.tensix_reset

The sequence is modelled as a trace semantics over the seven calls the
method makes: an outcome function says whether each call succeeds or
raises, and tensix_reset computes the list of calls actually executed plus
the exception that escapes, following the Python try/finally: the entry
set_safe_clks(True) runs before the try block, the five intermediate steps
run inside it, and set_safe_clks(False) runs in the finally block. -/

inductive GsStep
  | enterSafe
  | assertHard
  | toggleReset
  | setupNoc
  | softReset
  | deassertHard
  | exitSafe
deriving DecidableEq, Repr

/-- The five steps inside the try block, in source order. -/
def inner_steps : List GsStep :=
  [GsStep.assertHard, GsStep.toggleReset, GsStep.setupNoc,
   GsStep.softReset, GsStep.deassertHard]

/-- Run steps in order until one raises; the trace records every call
made, the raising call included. -/
def run_steps {E : Type} (outcome : GsStep → Option E) :
    List GsStep → List GsStep × Option E
  | [] => ([], none)
  | s :: rest =>
    match outcome s with
    | some e => ([s], some e)
    | none =>
      let tr := run_steps outcome rest
      (s :: tr.1, tr.2)

/-- From GSTensixReset.tensix_reset: enter safe clocks (outside the try),
run the five steps, and always exit safe clocks in the finally block; an
exception from the finally call replaces the body exception, as in
Python. -/
def tensix_reset {E : Type} (outcome : GsStep → Option E) :
    List GsStep × Option E :=
  match outcome GsStep.enterSafe with
  | some e => ([GsStep.enterSafe], some e)
  | none =>
    let tr := run_steps outcome inner_steps
    match outcome GsStep.exitSafe with
    | some e2 => (GsStep.enterSafe :: tr.1 ++ [GsStep.exitSafe], some e2)
    | none => (GsStep.enterSafe :: tr.1 ++ [GsStep.exitSafe], tr.2)

/-- An outcome whose entry set_safe_clks(True) call raises. -/
def enter_fails_outcome : GsStep → Option Unit
  | GsStep.enterSafe => some ()
  | _ => none

/-- An outcome where every call succeeds. -/
def all_ok_outcome : GsStep → Option Unit := fun _ => none

/-! ### Chassis orchestration, from tt_smi/resets/wh_resets.py

threaded_mobo_reset starts one ThreadWrapper per chassis entry, joins them
all, and only then reports the captured exceptions.  Workers are
independent — each runs the target on its own entry and writes only its
own exception slot — so the join-all orchestration is modelled by running
each worker to completion and collecting the slots: the first component is
the per-worker exception slot after join, the second the list of captured
exceptions the orchestrator prints before exiting with failure. -/

/-- ThreadWrapper.run: call the target, capture an exception into the
worker's own slot. -/
def run_worker {μ E α : Type} (target : μ → Except E α) (m : μ) : Option E :=
  match target m with
  | Except.ok _ => none
  | Except.error e => some e

/-- From threaded_mobo_reset: all workers run (none is skipped because a
sibling raised), and the exception list is collected only after the join
loop over every thread. -/
def threaded_mobo_reset {μ E α : Type} (target : μ → Except E α)
    (mobo_dict_list : List μ) : List (Option E) × List E :=
  let slots := mobo_dict_list.map (run_worker target)
  (slots, slots.filterMap id)

/-- A demonstration target on chassis ids where chassis 2 raises. -/
def demo_target : ℕ → Except ℕ Unit :=
  fun m => if m = 2 then Except.error m else Except.ok ()

end TTSMI

namespace TTSMI

/-- C1: the code computes the Q16.16 conversion without sign extension:
bits 31:16 are taken unsigned, so 0xFFF60000 decodes to 65526.0 rather than
the -10.0 required by the claim (and by the repository test suite and the
function docstring), and 0x80000000 decodes to +32768.0 rather than
-32768.0.  This theorem evaluates the code at the failing inputs and shows
the divergence from the signed reading the spec describes. -/
theorem convert_signed_16_16_no_sign_extension :
    convert_signed_16_16_to_float 0xFFF60000 = 65526 ∧
    convert_signed_16_16_to_float 0x80000000 = 32768 ∧
    convert_signed_16_16_to_float 0x7FFFFFFF = 32767 + 65535 / 65536 ∧
    signed_16_16_spec 0xFFF60000 = -10 ∧
    signed_16_16_spec 0x80000000 = -32768 ∧
    convert_signed_16_16_to_float 0xFFF60000 ≠ signed_16_16_spec 0xFFF60000 := by
  have h1 : ((0xFFF60000 : ℕ) >>> 16) = 65526 := by decide
  have h2 : ((0xFFF60000 : ℕ) &&& 0xFFFF) = 0 := by decide
  have h3 : ((0x80000000 : ℕ) >>> 16) = 32768 := by decide
  have h4 : ((0x80000000 : ℕ) &&& 0xFFFF) = 0 := by decide
  have h5 : ((0x7FFFFFFF : ℕ) >>> 16) = 32767 := by decide
  have h6 : ((0x7FFFFFFF : ℕ) &&& 0xFFFF) = 65535 := by decide
  have h7 : ((65526 : ℕ) &&& 0xFFFF) = 65526 := by decide
  have h8 : ((32768 : ℕ) &&& 0xFFFF) = 32768 := by decide
  refine ⟨?_, ?_, ?_, ?_, ?_, ?_⟩ <;>
    simp only [convert_signed_16_16_to_float, signed_16_16_spec,
      h1, h2, h3, h4, h5, h6, h7, h8] <;> norm_num

/-! ### Lemmas about the register interpreter -/

theorem pyAndNot_testBit (d m i : ℕ) :
    (pyAndNot d m).testBit i = (d.testBit i && !(m.testBit i)) := by
  rw [pyAndNot, Nat.testBit_xor, Nat.testBit_and]
  cases d.testBit i <;> cases m.testBit i <;> rfl

theorem and_eq_self_of_pyAndNot_eq_zero {d m : ℕ} (h : pyAndNot d m = 0) :
    d &&& m = d := by
  apply Nat.eq_of_testBit_eq
  intro i
  have hbit : (pyAndNot d m).testBit i = false := by
    rw [h]; exact Nat.zero_testBit i
  rw [pyAndNot_testBit] at hbit
  rw [Nat.testBit_and]
  cases hd : d.testBit i <;> cases hm : m.testBit i <;>
    simp_all

theorem testBit_true_of_and_eq {d m : ℕ} (hd : d &&& m = d) :
    ∀ i, d.testBit i = true → m.testBit i = true := by
  intro i hi
  have := congrArg (fun x => x.testBit i) hd
  simp only [Nat.testBit_and, hi, Bool.true_and] at this
  exact this

theorem lt_two_pow_of_testBit_subset {x y k : ℕ} (hy : y < 2 ^ k)
    (h : ∀ i, x.testBit i = true → y.testBit i = true) : x < 2 ^ k := by
  have hand : x &&& (2 ^ k - 1) = x := by
    apply Nat.eq_of_testBit_eq
    intro i
    rw [Nat.testBit_and, Nat.testBit_two_pow_sub_one]
    cases hx : x.testBit i
    · simp
    · have hyi := h i hx
      have hik : i < k := by
        by_contra hik
        have : y < 2 ^ i := lt_of_lt_of_le hy
          (Nat.pow_le_pow_right (by norm_num) (Nat.le_of_not_lt hik))
        rw [Nat.testBit_lt_two_pow this] at hyi
        exact Bool.false_ne_true hyi
      simp [hik]
  have hle : x ≤ 2 ^ k - 1 := hand ▸ Nat.and_le_right
  have hpos : 1 ≤ 2 ^ k := Nat.one_le_two_pow
  omega

theorem two_pow_sub_one_shiftRight (s t : ℕ) :
    (2 ^ s - 1) >>> t = 2 ^ (s - t) - 1 := by
  apply Nat.eq_of_testBit_eq
  intro i
  rw [Nat.testBit_shiftRight, Nat.testBit_two_pow_sub_one,
    Nat.testBit_two_pow_sub_one]
  rw [decide_eq_decide]
  omega

theorem nat_shiftRight_le (n k : ℕ) : n >>> k ≤ n := by
  rw [Nat.shiftRight_eq_div_pow]
  exact Nat.div_le_self n (2 ^ k)

/-- A successful get_mask_for_regsize returns a power of two minus one. -/
theorem get_mask_for_regsize_shape {regsize full : ℕ}
    (h : get_mask_for_regsize regsize = Except.ok full) :
    ∃ s, full = 2 ^ s - 1 := by
  unfold get_mask_for_regsize at h
  by_cases h32 : regsize = 32
  · refine ⟨32, ?_⟩
    simp [h32] at h
    omega
  · by_cases h64 : regsize = 64
    · refine ⟨64, ?_⟩
      simp [h32, h64] at h
      omega
    · simp [h32, h64] at h

/-- A successful field-part resolution returns a mask that is a power of
two minus one, no wider than the full register mask. -/
theorem resolve_field_part_shape {reg : RegInfo} {full : ℕ}
    {fieldName : Option String} {m s o : ℕ}
    (hfull : get_mask_for_regsize reg.regsize = Except.ok full)
    (hfp : resolve_field_part reg full fieldName = Except.ok (m, s, o)) :
    ∃ w, m = 2 ^ w - 1 ∧ m ≤ full := by
  unfold resolve_field_part at hfp
  obtain ⟨ws, hws⟩ := get_mask_for_regsize_shape hfull
  split at hfp
  · obtain ⟨hm, _, _⟩ := by simpa using hfp
    exact ⟨ws, by omega, by omega⟩
  · next fname =>
    split at hfp
    · exact absurd hfp (by simp)
    · next fi hfi =>
      split at hfp
      · exact absurd hfp (by simp)
      · next ms hms =>
        obtain ⟨ms1, ms2⟩ := ms
        obtain ⟨hm, hs, ho⟩ := by simpa using hfp
        unfold get_mask_and_shift at hms
        rw [hfull] at hms
        have h12 := Except.ok.inj hms
        rw [Prod.mk.injEq] at h12
        obtain ⟨h1, h2⟩ := h12
        refine ⟨ws - (reg.regsize - 1 - (fi.msb - fi.lsb)), ?_, ?_⟩
        · rw [← hm, ← h1, hws, two_pow_sub_one_shiftRight]
        · rw [← hm, ← h1]
          exact nat_shiftRight_le _ _

/-- Every successful path resolution looks up the register, succeeds on
get_mask_for_regsize, and produces a mask that is a power of two minus one
no wider than the full register mask. -/
theorem get_path_info_shape {so : ℕ} {regs : List (String × RegInfo)}
    {q : PathQuery} {addr mask shift : ℕ} {reg : RegInfo}
    (hres : get_path_info so regs q = Except.ok (addr, mask, shift, reg)) :
    regs.lookup q.regName = some reg ∧
    ∃ full, get_mask_for_regsize reg.regsize = Except.ok full ∧
      ∃ w, mask = 2 ^ w - 1 ∧ mask ≤ full := by
  unfold get_path_info at hres
  split at hres
  · exact absurd hres (by simp)
  · next r hlook =>
    split at hres
    · exact absurd hres (by simp)
    · next full hfull =>
      split at hres
      · exact absurd hres (by simp)
      · next m s o hfp =>
        have hshape := resolve_field_part_shape hfull hfp
        by_cases hidx : q.arrayIndex.getD 0 > 0
        · simp only [hidx, if_true] at hres
          split at hres
          · exact absurd hres (by simp)
          · split at hres
            · exact absurd hres (by simp)
            · split at hres
              · exact absurd hres (by simp)
              · obtain ⟨_, hm, _, hr⟩ := by simpa using hres
                subst hm hr
                exact ⟨hlook, full, hfull, hshape⟩
        · simp only [hidx, if_false] at hres
          obtain ⟨_, hm, _, hr⟩ := by simpa using hres
          subst hm hr
          exact ⟨hlook, full, hfull, hshape⟩

/-- Reading back the field bits after a read-modify-write insertion
recovers the written data. -/
theorem rmw_extract {cur data mask shift w : ℕ} (hm : mask = 2 ^ w - 1)
    (hd : data &&& mask = data) :
    ((pyAndNot cur (mask <<< shift) ||| data <<< shift) >>> shift) &&& mask
      = data := by
  have hdw : ∀ i, data.testBit i = true → i < w := by
    intro i hi
    have := testBit_true_of_and_eq hd i hi
    rw [hm, Nat.testBit_two_pow_sub_one] at this
    exact of_decide_eq_true this
  apply Nat.eq_of_testBit_eq
  intro i
  rw [Nat.testBit_and, Nat.testBit_shiftRight, Nat.testBit_or,
    pyAndNot_testBit, hm]
  rw [Nat.testBit_shiftLeft, Nat.testBit_shiftLeft,
    Nat.testBit_two_pow_sub_one, Nat.testBit_two_pow_sub_one]
  have h1 : shift + i - shift = i := by omega
  have h2 : (decide (shift + i ≥ shift)) = true := by simp
  rw [h1, h2]
  by_cases hiw : i < w
  · simp [hiw]
  · have hdi : data.testBit i = false := by
      cases hdi2 : data.testBit i
      · rfl
      · exact absurd (hdw i hdi2) hiw
    simp [hiw, hdi]

/-- C3 counterexample: hex_to_semver, one of the firmware-version decoding
functions, raises ValueError on the sentinel input 0 instead of yielding
the string N/A. -/
theorem hex_to_semver_raises_on_zero :
    hex_to_semver 0 = Except.error PyErr.valueError ∧
    hex_to_semver 0xFFFFFFFF = Except.error PyErr.valueError ∧
    ∀ s : String, hex_to_semver 0 ≠ Except.ok s := by
  refine ⟨rfl, rfl, fun s h => ?_⟩
  simp [hex_to_semver] at h

/-- C3 amended: the three decoders hex_to_semver_m3_fw (4-byte semver
packing), hex_to_semver_eth (Ethernet packing) and hex_to_date (date
packing) map 0 and all-ones to the string N/A; being total Lean functions
translated from raise-free Python bodies, they never raise.  The fourth
decoder, hex_to_semver, instead raises ValueError on its sentinels. -/
theorem fw_decoders_sentinel_na :
    hex_to_semver_m3_fw 0 = "N/A" ∧
    hex_to_semver_m3_fw 0xFFFFFFFF = "N/A" ∧
    hex_to_semver_eth 0 = "N/A" ∧
    hex_to_semver_eth 0xFFFFFF = "N/A" ∧
    (∀ b : Bool, hex_to_date 0 b = "N/A") ∧
    (∀ b : Bool, hex_to_date 0xFFFFFFFF b = "N/A") ∧
    hex_to_semver 0 = Except.error PyErr.valueError ∧
    hex_to_semver 0xFFFFFFFF = Except.error PyErr.valueError := by
  refine ⟨rfl, rfl, rfl, rfl, fun b => ?_, fun b => ?_, rfl, rfl⟩ <;>
    simp [hex_to_date]

theorem get_mask_values {regsize full : ℕ}
    (h : get_mask_for_regsize regsize = Except.ok full) :
    full = 0xFFFFFFFF ∨ full = 0xFFFFFFFFFFFFFFFF := by
  unfold get_mask_for_regsize at h
  by_cases h32 : regsize = 32
  · simp [h32] at h
    omega
  · by_cases h64 : regsize = 64
    · simp [h32, h64] at h
      omega
    · simp [h32, h64] at h

/-- C2 amended: the write-then-read round trip through write32 and read32
holds for every resolved path whose field bits fit inside one 32-bit bus
word (mask shifted into position below two to the 32) — in particular for
every field or whole register of a 32-bit register, and for each 32-bit
half of a 64-bit value split across adjacent words via the field byte
offset.  read32 always issues exactly one 32-bit read; the two-read
combination the claim describes lives in read_fields and rmw_fields, so for
a 64-bit register resolved as a whole the round trip fails (see the
counterexample). -/
theorem write32_read32_roundtrip (so : ℕ) (regs : List (String × RegInfo))
    (q : PathQuery) (data : ℕ) (b : Bus) (addr mask shift : ℕ) (reg : RegInfo)
    (hres : get_path_info so regs q = Except.ok (addr, mask, shift, reg))
    (hfit : mask <<< shift < 2 ^ 32)
    (hdata : pyAndNot data mask = 0) :
    ∃ b', write32 so regs q data b = (Except.ok (), b') ∧
      (read32 so regs q b').1 = Except.ok data := by
  obtain ⟨hlook, full, hfull, w, hw, hmlef⟩ := get_path_info_shape hres
  have hand : data &&& mask = data := and_eq_self_of_pyAndNot_eq_zero hdata
  have hdle : data ≤ mask := by
    conv_lhs => rw [← hand]
    exact Nat.and_le_right
  have hdshift : data <<< shift < 2 ^ 32 := by
    have h1 : data <<< shift ≤ mask <<< shift := by
      rw [Nat.shiftLeft_eq, Nat.shiftLeft_eq]
      exact Nat.mul_le_mul_right _ hdle
    exact lt_of_le_of_lt h1 hfit
  by_cases hmf : mask = full
  · -- The field covers the whole register: a single direct write.
    have hfull32 : full = 0xFFFFFFFF := by
      rcases get_mask_values hfull with h | h
      · exact h
      · exfalso
        have h1 : mask ≤ mask <<< shift := by
          rw [Nat.shiftLeft_eq]
          exact Nat.le_mul_of_pos_right _ (Nat.pos_pow_of_pos _ (by norm_num))
        have hm64 : mask = 18446744073709551615 := by rw [hmf, h]
        have h3 : (18446744073709551615 : ℕ) ≤ mask <<< shift :=
          calc (18446744073709551615 : ℕ) = mask := hm64.symm
            _ ≤ mask <<< shift := h1
        have h2 : (2 : ℕ) ^ 32 = 4294967296 := by norm_num
        rw [h2] at hfit
        omega
    have hmask32 : mask = 4294967295 := by rw [hmf, hfull32]
    have hdlt32 : data < 2 ^ 32 := by
      have : (2 : ℕ) ^ 32 = 4294967296 := by norm_num
      omega
    have hshift0 : shift = 0 := by
      by_contra hs
      have h1 : 2 ≤ 2 ^ shift := by
        have h2 : 1 ≤ shift := Nat.one_le_iff_ne_zero.mpr hs
        calc (2 : ℕ) = 2 ^ 1 := rfl
          _ ≤ 2 ^ shift := Nat.pow_le_pow_right (by norm_num) h2
      have h3 : mask <<< shift = mask * 2 ^ shift := Nat.shiftLeft_eq _ _
      have h4 : mask * 2 ≤ mask * 2 ^ shift := Nat.mul_le_mul_left mask h1
      rw [← h3] at h4
      have h5 : (2 : ℕ) ^ 32 = 4294967296 := by norm_num
      rw [h5] at hfit
      omega
    have hmem : data % 2 ^ 32 = data := Nat.mod_eq_of_lt hdlt32
    refine ⟨busWrite b addr data, ?_, ?_⟩
    · simp only [write32, hres, hdata, hfull]
      simp [hmf]
    · simp only [read32, hres, busRead, busWrite]
      simp only [if_pos rfl, if_true, hmem, hshift0, Nat.shiftRight_zero, hand]
  · -- Read-modify-write of a single 32-bit word.
    have hcur : b.mem addr % 2 ^ 32 < 2 ^ 32 :=
      Nat.mod_lt _ (by norm_num)
    have hcleared : pyAndNot (b.mem addr % 2 ^ 32) (mask <<< shift) < 2 ^ 32 := by
      apply lt_two_pow_of_testBit_subset hcur
      intro i hi
      rw [pyAndNot_testBit] at hi
      exact (Bool.and_elim_left hi)
    have hnew : pyAndNot (b.mem addr % 2 ^ 32) (mask <<< shift) |||
        data <<< shift < 2 ^ 32 := Nat.or_lt_two_pow hcleared hdshift
    refine ⟨busWrite { b with log := b.log ++ [BusOp.read addr] } addr
        (pyAndNot (b.mem addr % 2 ^ 32) (mask <<< shift) ||| data <<< shift),
      ?_, ?_⟩
    · simp only [write32, hres, hdata, hfull]
      simp only [busRead, pyAndNot]
      simp [hmf]
    · simp only [read32, hres, busRead, busWrite]
      simp only [if_pos rfl, if_true, Nat.mod_eq_of_lt hnew]
      rw [rmw_extract hw hand]

/-- C2 witness: the round trip at a concrete 32-bit array register field:
writing 5 to C[1].E (bits 3:1, so a read-modify-write of the word at
address 68) and reading it back yields 5. -/
theorem write32_read32_roundtrip_apply :
    ∃ b', write32 0 regs32ex q32ex 5 bus0 = (Except.ok (), b') ∧
      (read32 0 regs32ex q32ex b').1 = Except.ok 5 :=
  write32_read32_roundtrip 0 regs32ex q32ex 5 bus0 68 7 1
    { address := 64, regsize := 32, arraySize := some 4,
      addressIncrement := some 4,
      fields := [("E", { msb := 3, lsb := 1, offset := none })] }
    rfl (by decide) (by decide)

/-- C2 counterexample: for the 64-bit register R resolved as a whole, the
value v = 2 to the 32 lies within the resolved mask, the write succeeds,
but reading the path back through read32 returns 0, not v: read32 issues
exactly one 32-bit bus read (not the two the claim describes) and the
single-word write truncates to 32 bits, so the round trip fails on 64-bit
registers. -/
theorem write32_read32_roundtrip64_fails :
    pyAndNot 4294967296 0xFFFFFFFFFFFFFFFF = 0 ∧
    (write32 0 regs64ex q64ex 4294967296 bus0).1 = Except.ok () ∧
    (read32 0 regs64ex q64ex (write32 0 regs64ex q64ex 4294967296 bus0).2).1 =
      Except.ok 0 ∧
    (0 : ℕ) ≠ 4294967296 ∧
    ((read32 0 regs64ex q64ex
        (write32 0 regs64ex q64ex 4294967296 bus0).2).2.log.filter
      BusOp.isRead).length = 1 := by
  exact ⟨by decide, rfl, rfl, by norm_num, rfl⟩

/-- C6: a write32 whose data does not fit the resolved field mask raises
and leaves the bus untouched: the injected writer is invoked zero times and
no read-modify-write read happens either, because the mask check precedes
both. -/
theorem write32_oversize_no_bus_touch (so : ℕ) (regs : List (String × RegInfo))
    (q : PathQuery) (data : ℕ) (b : Bus) (addr mask shift : ℕ) (reg : RegInfo)
    (hres : get_path_info so regs q = Except.ok (addr, mask, shift, reg))
    (hbad : pyAndNot data mask ≠ 0) :
    write32 so regs q data b = (Except.error RegError.runtimeError, b) := by
  simp only [write32, hres]
  simp [hbad]

/-- C6 witness: writing 9 to the three-bit field C[1].E (mask 7) raises and
performs no bus operation. -/
theorem write32_oversize_no_bus_touch_apply :
    write32 0 regs32ex q32ex 9 bus0 = (Except.error RegError.runtimeError, bus0) :=
  write32_oversize_no_bus_touch 0 regs32ex q32ex 9 bus0 68 7 1
    { address := 64, regsize := 32, arraySize := some 4,
      addressIncrement := some 4,
      fields := [("E", { msb := 3, lsb := 1, offset := none })] }
    rfl (by decide)

/-- C9: the helper Register class write_fields never initialises total_mask
inside its loop, so a call without the __init keyword always raises — even
when every field of the register is supplied — while rmw_fields succeeds by
passing the current register value as __init. -/
theorem hreg_write_fields_requires_init (r : HReg)
    (assigns : List (String × ℕ)) :
    (∃ e, hreg_write_fields r none assigns = Except.error e) ∧
    (∀ bc fs d a2, hreg_rmw_fields ⟨bc, fs, some d⟩ a2 =
      hreg_write_fields ⟨bc, fs, some d⟩ (some d) a2) := by
  constructor
  · unfold hreg_write_fields
    cases h : hreg_write_fields_loop r.fields assigns 0 with
    | error e => exact ⟨e, by simp [h]⟩
    | ok nv => exact ⟨RegError.runtimeError, by simp [h]⟩
  · intro bc fs d a2
    rfl

/-- C10: path resolution treats an omitted array index exactly as index 0
and range-checks only positive indices: resolving index 0 never consults
ArraySize, while any index of at least 1 raises when ArraySize is missing
or when the index reaches ArraySize. -/
theorem get_path_info_array_index_check (so : ℕ)
    (regs : List (String × RegInfo)) (name : String)
    (fieldName : Option String) (reg : RegInfo)
    (hlook : regs.lookup name = some reg) :
    (get_path_info so regs ⟨name, some 0, fieldName⟩ =
      get_path_info so regs ⟨name, none, fieldName⟩) ∧
    (∀ i, 1 ≤ i → reg.arraySize = none →
      ∃ e, get_path_info so regs ⟨name, some i, fieldName⟩ = Except.error e) ∧
    (∀ i n, 1 ≤ i → reg.arraySize = some n → n ≤ i →
      ∃ e, get_path_info so regs ⟨name, some i, fieldName⟩ =
        Except.error e) := by
  refine ⟨rfl, ?_, ?_⟩
  · intro i hi hnone
    have hipos : 0 < i := hi
    simp only [get_path_info, hlook]
    cases hfull : get_mask_for_regsize reg.regsize with
    | error e => exact ⟨e, by simp [hfull]⟩
    | ok full =>
      cases hfp : resolve_field_part reg full fieldName with
      | error e => exact ⟨e, by simp [hfull, hfp]⟩
      | ok mso =>
        obtain ⟨m, s, o⟩ := mso
        refine ⟨RegError.keyError, ?_⟩
        simp [hfull, hfp, hipos, hnone]
  · intro i n hi hsome hge
    have hipos : 0 < i := hi
    simp only [get_path_info, hlook]
    cases hfull : get_mask_for_regsize reg.regsize with
    | error e => exact ⟨e, by simp [hfull]⟩
    | ok full =>
      cases hfp : resolve_field_part reg full fieldName with
      | error e => exact ⟨e, by simp [hfull, hfp]⟩
      | ok mso =>
        obtain ⟨m, s, o⟩ := mso
        refine ⟨RegError.runtimeError, ?_⟩
        simp [hfull, hfp, hipos, hsome, hge]

/-- C10 witness: on the two-element array register S, resolving S[5]
raises the array range error, resolving S[0] equals resolving S. -/
theorem get_path_info_array_index_check_apply :
    (get_path_info 0 regsW ⟨"S", some 0, none⟩ =
      get_path_info 0 regsW ⟨"S", none, none⟩) ∧
    ∃ e, get_path_info 0 regsW ⟨"S", some 5, none⟩ =
      Except.error e :=
  ⟨(get_path_info_array_index_check 0 regsW "S" none
      { address := 16, regsize := 32, arraySize := some 2,
        addressIncrement := some 4, fields := [] } rfl).1,
    (get_path_info_array_index_check 0 regsW "S" none
      { address := 16, regsize := 32, arraySize := some 2,
        addressIncrement := some 4, fields := [] } rfl).2.2
      5 2 (by norm_num) rfl (by norm_num)⟩

/-! ### Lemmas about bit lists and harvesting -/

theorem bit_length_aux_lt (fuel : ℕ) :
    ∀ x, x ≤ fuel → x < 2 ^ bit_length_aux fuel x := by
  induction fuel with
  | zero =>
    intro x hx
    have hx0 : x = 0 := by omega
    subst hx0
    simp [bit_length_aux]
  | succ n ih =>
    intro x hx
    by_cases h0 : x = 0
    · subst h0
      simp [bit_length_aux]
    · have hstep : bit_length_aux (n + 1) x = bit_length_aux n (x / 2) + 1 := by
        simp [bit_length_aux, h0]
      rw [hstep, pow_succ]
      have hdiv : x / 2 ≤ n := by omega
      have hrec := ih (x / 2) hdiv
      omega

theorem bit_length_lt (x : ℕ) : x < 2 ^ bit_length x :=
  bit_length_aux_lt x x le_rfl

theorem testBit_false_of_bit_length_le {x b : ℕ} (h : bit_length x ≤ b) :
    x.testBit b = false :=
  Nat.testBit_lt_two_pow (lt_of_lt_of_le (bit_length_lt x)
    (Nat.pow_le_pow_right (by norm_num) h))

theorem and_one_shiftLeft_ne_zero (x b : ℕ) :
    x &&& (1 <<< b) ≠ 0 ↔ x.testBit b = true := by
  rw [Nat.one_shiftLeft]
  constructor
  · intro h
    by_contra hb
    apply h
    apply Nat.eq_of_testBit_eq
    intro i
    rw [Nat.testBit_and, Nat.testBit_two_pow, Nat.zero_testBit]
    by_cases hib : b = i
    · subst hib
      rw [Bool.not_eq_true] at hb
      simp [hb]
    · simp [hib]
  · intro h hz
    have h2 := congrArg (fun n => n.testBit b) hz
    simp only [Nat.testBit_and, Nat.testBit_two_pow, Nat.zero_testBit, h] at h2
    simp at h2

theorem mem_int_to_bits {x b : ℕ} : b ∈ int_to_bits x ↔ x.testBit b = true := by
  simp only [int_to_bits, List.mem_filter, List.mem_range, decide_eq_true_eq]
  constructor
  · rintro ⟨_, h⟩
    exact (and_one_shiftLeft_ne_zero x b).mp h
  · intro h
    refine ⟨?_, (and_one_shiftLeft_ne_zero x b).mpr h⟩
    by_contra hb
    rw [testBit_false_of_bit_length_le (le_of_not_lt hb)] at h
    exact Bool.false_ne_true h

theorem int_to_bits_nodup (x : ℕ) : (int_to_bits x).Nodup :=
  (List.nodup_range _).filter _

theorem int_to_bits_length_eq_popcount (x : ℕ) :
    (int_to_bits x).length = popcount x := by
  unfold int_to_bits popcount
  congr 1
  apply List.filter_congr
  intro b _
  cases h : x.testBit b
  · have h2 : ¬ (x &&& (1 <<< b) ≠ 0) := by
      rw [and_one_shiftLeft_ne_zero, h]
      simp
    simp [h2]
  · simp [(and_one_shiftLeft_ne_zero x b).mpr h]

theorem popcount_shiftLeft_one : ∀ v, v < 1024 →
    popcount (v <<< 1) = popcount v := by decide

theorem phys_map_mem : ∀ a, 1 ≤ a → a ≤ 10 →
    PHYS_Y_TO_NOC_0_Y.getD (GRID_SIZE_Y - a - 1) 0 ∈ candidate_rows := by decide

theorem phys_map_inj : ∀ a, 1 ≤ a → a ≤ 10 → ∀ b, 1 ≤ b → b ≤ 10 →
    PHYS_Y_TO_NOC_0_Y.getD (GRID_SIZE_Y - a - 1) 0 =
      PHYS_Y_TO_NOC_0_Y.getD (GRID_SIZE_Y - b - 1) 0 → a = b := by decide

theorem fuse_or_lt (fuses : ℕ) :
    (fuses &&& 0x3FF) ||| ((fuses >>> 10) &&& 0x3FF) < 1024 := by
  have h1 : fuses &&& 0x3FF ≤ 0x3FF := Nat.and_le_right
  have h2 : (fuses >>> 10) &&& 0x3FF ≤ 0x3FF := Nat.and_le_right
  have e : (2 : ℕ) ^ 10 = 1024 := by norm_num
  have h3 := Nat.or_lt_two_pow (n := 10)
    (x := fuses &&& 0x3FF) (y := (fuses >>> 10) &&& 0x3FF)
    (by omega) (by omega)
  omega

theorem bad_rows_range {v b : ℕ} (hv : v < 1024)
    (hb : b ∈ int_to_bits (v <<< 1)) : 1 ≤ b ∧ b ≤ 10 := by
  rw [mem_int_to_bits] at hb
  constructor
  · by_contra h
    have hb0 : b = 0 := by omega
    subst hb0
    rw [Nat.testBit_shiftLeft] at hb
    simp at hb
  · by_contra h
    have h11 : 11 ≤ b := by omega
    have hlt : v <<< 1 < 2 ^ 11 := by
      rw [Nat.shiftLeft_eq]
      have e : (2 : ℕ) ^ 11 = 2048 := by norm_num
      have e1 : (2 : ℕ) ^ 1 = 2 := by norm_num
      rw [e, e1]
      omega
    rw [Nat.testBit_lt_two_pow (lt_of_lt_of_le hlt
      (Nat.pow_le_pow_right (by norm_num) h11))] at hb
    exact Bool.false_ne_true hb

/-- The harvested-row set, written without the lets. -/
theorem get_harvested_rows_def (fuses : ℕ) :
    get_harvested_rows fuses =
      ((int_to_bits (((fuses &&& 0x3FF) ||| ((fuses >>> 10) &&& 0x3FF)) <<< 1)).map
        (fun y => PHYS_Y_TO_NOC_0_Y.getD (GRID_SIZE_Y - y - 1) 0)).toFinset := rfl

theorem harvested_subset (fuses : ℕ) :
    ∀ a ∈ get_harvested_rows fuses, a ∈ candidate_rows := by
  intro a ha
  rw [get_harvested_rows_def] at ha
  rw [List.mem_toFinset, List.mem_map] at ha
  obtain ⟨b, hb, rfl⟩ := ha
  obtain ⟨hb1, hb2⟩ := bad_rows_range (fuse_or_lt fuses) hb
  exact phys_map_mem b hb1 hb2

theorem harvested_card (fuses : ℕ) :
    (get_harvested_rows fuses).card =
      popcount ((fuses &&& 0x3FF) ||| ((fuses >>> 10) &&& 0x3FF)) := by
  rw [get_harvested_rows_def]
  have hnodup : ((int_to_bits (((fuses &&& 0x3FF) |||
      ((fuses >>> 10) &&& 0x3FF)) <<< 1)).map
      (fun y => PHYS_Y_TO_NOC_0_Y.getD (GRID_SIZE_Y - y - 1) 0)).Nodup := by
    apply List.Nodup.map_on
    · intro a ha b hb hf
      obtain ⟨ha1, ha2⟩ := bad_rows_range (fuse_or_lt fuses) ha
      obtain ⟨hb1, hb2⟩ := bad_rows_range (fuse_or_lt fuses) hb
      exact phys_map_inj a ha1 ha2 b hb1 hb2 hf
    · exact int_to_bits_nodup _
  rw [List.toFinset_card_of_nodup hnodup, List.length_map,
    int_to_bits_length_eq_popcount,
    popcount_shiftLeft_one _ (fuse_or_lt fuses)]

theorem candidate_rows_iff (a : ℕ) :
    a ∈ candidate_rows ↔ a ∈ candidate_rows_finset := by
  simp [candidate_rows, candidate_rows_finset]

/-- C4: for every fuse value, the enabled-core set computed by
get_core_list is exactly the columns 1..12 crossed with the candidate
non-edge rows minus the harvested rows, and its length is
(grid width - 1) * (10 - popcount(memory bits OR logic bits)). -/
theorem get_core_list_exact (fuses : ℕ) :
    (get_core_list fuses).toFinset = claimed_core_set fuses ∧
    (get_core_list fuses).length =
      (GRID_SIZE_X - 1) *
        (10 - popcount ((fuses &&& 0x3FF) ||| ((fuses >>> 10) &&& 0x3FF))) := by
  constructor
  · ext p
    obtain ⟨x, y⟩ := p
    rw [List.mem_toFinset]
    unfold claimed_core_set get_core_list
    rw [Finset.mem_product, Finset.mem_sdiff, Finset.mem_Icc]
    simp only [List.mem_flatMap, List.mem_map, List.mem_filter,
      List.mem_range'_1, decide_eq_true_eq, GRID_SIZE_X]
    constructor
    · rintro ⟨a, ⟨ha1, ha2⟩, b, ⟨hb1, hb2⟩, heq⟩
      cases heq
      rw [candidate_rows_iff] at hb1
      exact ⟨⟨ha1, by omega⟩, hb1, hb2⟩
    · rintro ⟨⟨hx1, hx2⟩, hy1, hy2⟩
      refine ⟨x, ⟨hx1, by omega⟩, y, ⟨?_, hy2⟩, rfl⟩
      rw [candidate_rows_iff]
      exact hy1
  · have hflat : (get_core_list fuses).length = (GRID_SIZE_X - 1) *
        (candidate_rows.filter
          (fun y => y ∉ get_harvested_rows fuses)).length := by
      simp only [get_core_list, List.length_flatMap, Function.comp_def,
        List.length_map, List.map_const', List.sum_replicate,
        List.length_range', smul_eq_mul]
    rw [hflat]
    congr 1
    have hnd : (candidate_rows.filter
        (fun y => y ∉ get_harvested_rows fuses)).Nodup :=
      List.Nodup.filter _ (by decide)
    have hcards : (candidate_rows.filter
        (fun y => y ∉ get_harvested_rows fuses)).length =
        (candidate_rows_finset \ get_harvested_rows fuses).card := by
      rw [← List.toFinset_card_of_nodup hnd, List.toFinset_filter]
      congr 1
      rw [Finset.sdiff_eq_filter]
      have hc : candidate_rows.toFinset = candidate_rows_finset := by decide
      rw [hc]
      apply Finset.filter_congr
      intro a _
      simp
    rw [hcards]
    have hsub : get_harvested_rows fuses ⊆ candidate_rows_finset := by
      intro a ha
      rw [← candidate_rows_iff]
      exact harvested_subset fuses a ha
    rw [Finset.card_sdiff hsub, harvested_card]
    have hcf : candidate_rows_finset.card = 10 := by decide
    rw [hcf]

/-! ### Lemmas about the reset-mask computation -/

theorem core_list_subset_grid (fuses : ℕ) :
    ∀ c ∈ get_core_list fuses, c ∈ full_grid_cores := by
  intro c hc
  unfold get_core_list at hc
  unfold full_grid_cores
  rw [List.mem_flatMap] at hc ⊢
  obtain ⟨x, hx, hc2⟩ := hc
  rw [List.mem_map] at hc2
  obtain ⟨y, hy, rfl⟩ := hc2
  rw [List.mem_filter] at hy
  exact ⟨x, hx, List.mem_map.mpr ⟨y, hy.1, rfl⟩⟩

theorem grid_mask_shape : ∀ c ∈ full_grid_cores,
    (noc_loc_to_reset_mask c.1 c.2).1 < 8 ∧
    ∃ k, k < 32 ∧ (noc_loc_to_reset_mask c.1 c.2).2 = 1 <<< k := by decide

theorem grid_mask_nodup :
    (full_grid_cores.map (fun c => noc_loc_to_reset_mask c.1 c.2)).Nodup := by
  decide

theorem foldl_set_or_length {α : Type} (g : α → ℕ × ℕ) :
    ∀ (L : List α) (acc : List ℕ),
      (L.foldl (fun a c => a.set (g c).1 (a.getD (g c).1 0 ||| (g c).2))
        acc).length = acc.length := by
  intro L
  induction L with
  | nil => intro acc; rfl
  | cons c L ih =>
    intro acc
    rw [List.foldl_cons, ih]
    simp

theorem foldl_set_or_testBit {α : Type} (g : α → ℕ × ℕ) :
    ∀ (L : List α) (acc : List ℕ),
      (∀ c ∈ L, (g c).1 < acc.length) →
      ∀ j, j < acc.length → ∀ k,
      (((L.foldl (fun a c => a.set (g c).1 (a.getD (g c).1 0 ||| (g c).2))
          acc).getD j 0).testBit k = true ↔
        ((acc.getD j 0).testBit k = true ∨
          ∃ c ∈ L, (g c).1 = j ∧ ((g c).2).testBit k = true)) := by
  intro L
  induction L with
  | nil =>
    intro acc h j hj k
    simp
  | cons c L ih =>
    intro acc h j hj k
    rw [List.foldl_cons]
    have hclen : (g c).1 < acc.length := h c (List.mem_cons_self c L)
    have hlen : (acc.set (g c).1 (acc.getD (g c).1 0 ||| (g c).2)).length =
        acc.length := by simp
    have hin : ∀ c' ∈ L,
        (g c').1 < (acc.set (g c).1 (acc.getD (g c).1 0 ||| (g c).2)).length := by
      rw [hlen]
      intro c' hc'
      exact h c' (List.mem_cons_of_mem c hc')
    rw [ih _ hin j (by rw [hlen]; exact hj) k]
    by_cases hji : (g c).1 = j
    · rw [hji]
      have hset : ((acc.set j (acc.getD j 0 ||| (g c).2)).getD j 0) =
          acc.getD j 0 ||| (g c).2 := by
        simp [List.getD_eq_getElem?_getD, List.getElem?_set_self, hj]
      rw [hset, Nat.testBit_or, Bool.or_eq_true]
      constructor
      · rintro ((h1 | h1) | ⟨c', hc', h1, h2⟩)
        · exact Or.inl h1
        · exact Or.inr ⟨c, List.mem_cons_self c L, hji, h1⟩
        · exact Or.inr ⟨c', List.mem_cons_of_mem c hc', h1, h2⟩
      · rintro (h1 | ⟨c', hc', h1, h2⟩)
        · exact Or.inl (Or.inl h1)
        · rcases List.mem_cons.mp hc' with rfl | hmem
          · exact Or.inl (Or.inr h2)
          · exact Or.inr ⟨c', hmem, h1, h2⟩
    · have hset : ((acc.set (g c).1 (acc.getD (g c).1 0 ||| (g c).2)).getD j 0) =
          acc.getD j 0 := by
        simp [List.getD_eq_getElem?_getD, List.getElem?_set_ne hji]
      rw [hset]
      constructor
      · rintro (h1 | ⟨c', hc', h1, h2⟩)
        · exact Or.inl h1
        · exact Or.inr ⟨c', List.mem_cons_of_mem c hc', h1, h2⟩
      · rintro (h1 | ⟨c', hc', h1, h2⟩)
        · exact Or.inl h1
        · rcases List.mem_cons.mp hc' with rfl | hmem
          · exact absurd h1 hji
          · exact Or.inr ⟨c', hmem, h1, h2⟩

/-- C8: every enabled core maps to a word index below 8 and a one-bit
mask, distinct enabled cores map to distinct (word, bit) pairs, and the
8-word array folds together exactly the bits of the enabled cores: bit k
of word j is set precisely when some enabled core maps there. -/
theorem all_tensix_reset_mask_exact (fuses : ℕ) :
    (∀ c ∈ get_core_list fuses,
      (noc_loc_to_reset_mask c.1 c.2).1 < 8 ∧
      ∃ k, k < 32 ∧ (noc_loc_to_reset_mask c.1 c.2).2 = 1 <<< k) ∧
    (∀ c ∈ get_core_list fuses, ∀ c' ∈ get_core_list fuses, c ≠ c' →
      noc_loc_to_reset_mask c.1 c.2 ≠ noc_loc_to_reset_mask c'.1 c'.2) ∧
    (all_tensix_reset_mask fuses).length = 8 ∧
    (∀ j, j < 8 → ∀ k,
      (((all_tensix_reset_mask fuses).getD j 0).testBit k = true ↔
        ∃ c ∈ get_core_list fuses,
          noc_loc_to_reset_mask c.1 c.2 = (j, 1 <<< k))) := by
  have hshape : ∀ c ∈ get_core_list fuses,
      (noc_loc_to_reset_mask c.1 c.2).1 < 8 ∧
      ∃ k, k < 32 ∧ (noc_loc_to_reset_mask c.1 c.2).2 = 1 <<< k :=
    fun c hc => grid_mask_shape c (core_list_subset_grid fuses c hc)
  refine ⟨hshape, ?_, ?_, ?_⟩
  · intro c hc c' hc' hne heq
    exact hne (List.inj_on_of_nodup_map grid_mask_nodup
      (core_list_subset_grid fuses c hc) (core_list_subset_grid fuses c' hc') heq)
  · rw [all_tensix_reset_mask,
      foldl_set_or_length (fun c : ℕ × ℕ => noc_loc_to_reset_mask c.1 c.2)]
    simp
  · intro j hj k
    rw [all_tensix_reset_mask,
      foldl_set_or_testBit (fun c : ℕ × ℕ => noc_loc_to_reset_mask c.1 c.2)
        (get_core_list fuses) (List.replicate 8 0)
        (fun c hc => by simpa using (hshape c hc).1) j (by simpa using hj) k]
    have h0 : ((List.replicate 8 (0 : ℕ)).getD j 0) = 0 := by
      rw [List.getD_eq_getElem?_getD, List.getElem?_replicate]
      by_cases hjl : j < 8 <;> simp [hjl]
    rw [h0]
    simp only [Nat.zero_testBit, Bool.false_eq_true, false_or]
    constructor
    · rintro ⟨c, hc, hidx, hbit⟩
      obtain ⟨_, k', hk', hmask⟩ := hshape c hc
      rw [hmask, Nat.one_shiftLeft, Nat.testBit_two_pow] at hbit
      have hkk : k' = k := of_decide_eq_true hbit
      subst hkk
      exact ⟨c, hc, Prod.ext hidx hmask⟩
    · rintro ⟨c, hc, heq⟩
      refine ⟨c, hc, ?_, ?_⟩
      · rw [heq]
      · rw [heq, Nat.one_shiftLeft, Nat.testBit_two_pow]
        simp

/-- C8 witness: with fuse value 1 (one harvested row), core (1, 1) maps to
word 0 with a single bit, and bit 13 of word 0 is set exactly when an
enabled core maps there. -/
theorem all_tensix_reset_mask_exact_apply :
    ((noc_loc_to_reset_mask 1 1).1 < 8 ∧
      ∃ k, k < 32 ∧ (noc_loc_to_reset_mask 1 1).2 = 1 <<< k) ∧
    (((all_tensix_reset_mask 1).getD 0 0).testBit 13 = true ↔
      ∃ c ∈ get_core_list 1, noc_loc_to_reset_mask c.1 c.2 = (0, 1 <<< 13)) :=
  ⟨(all_tensix_reset_mask_exact 1).1 (1, 1) (by decide),
   (all_tensix_reset_mask_exact 1).2.2.2 0 (by norm_num) 13⟩

/-! ### C5: the reset sequence and its cleanup -/

/-- C5 counterexample: when the entry set_safe_clks(True) call itself
raises, tensix_reset terminates without executing the exit-safe-clocks
call, because the entry call runs before the try/finally block. -/
theorem tensix_reset_enter_fail_no_cleanup :
    (tensix_reset enter_fails_outcome).1 = [GsStep.enterSafe] ∧
    GsStep.exitSafe ∉ (tensix_reset enter_fails_outcome).1 := by
  refine ⟨rfl, ?_⟩
  decide

/-- C5 amended: in every execution whose entry safe-clocks call succeeds,
the exit-safe-clocks call executes before termination — even when any of
the five intermediate steps (hard-reset assert, tensix toggle-reset, NOC
setup, soft-reset broadcast, hard-reset deassert) raises — and in a
non-failing execution the calls run in the fixed source order. -/
theorem tensix_reset_cleanup_and_order {E : Type}
    (outcome : GsStep → Option E)
    (henter : outcome GsStep.enterSafe = none) :
    GsStep.exitSafe ∈ (tensix_reset outcome).1 ∧
    ((∀ s, outcome s = none) →
      tensix_reset outcome =
        ([GsStep.enterSafe, GsStep.assertHard, GsStep.toggleReset,
          GsStep.setupNoc, GsStep.softReset, GsStep.deassertHard,
          GsStep.exitSafe], none)) := by
  constructor
  · rw [tensix_reset, henter]
    cases houtcome : outcome GsStep.exitSafe <;> simp
  · intro hall
    rw [tensix_reset, henter]
    simp [run_steps, inner_steps, hall]

/-- C5 witness: in the all-success execution the cleanup call is in the
trace and the trace is the fixed seven-call order. -/
theorem tensix_reset_cleanup_and_order_apply :
    GsStep.exitSafe ∈ (tensix_reset all_ok_outcome).1 ∧
    tensix_reset all_ok_outcome =
      ([GsStep.enterSafe, GsStep.assertHard, GsStep.toggleReset,
        GsStep.setupNoc, GsStep.softReset, GsStep.deassertHard,
        GsStep.exitSafe], none) :=
  ⟨(tensix_reset_cleanup_and_order all_ok_outcome rfl).1,
   (tensix_reset_cleanup_and_order all_ok_outcome rfl).2 (fun _ => rfl)⟩

/-! ### C7: chassis orchestration -/

/-- C7: threaded_mobo_reset runs one worker per chassis entry — every
entry's worker runs to completion regardless of what the others do — and
only after all workers have finished does it collect the exceptions:
failure is reported exactly when some worker raised, and every captured
exception appears in the report. -/
theorem threaded_mobo_reset_join_all {μ E α : Type}
    (target : μ → Except E α) (l : List μ) :
    (threaded_mobo_reset target l).1.length = l.length ∧
    (∀ i m, l.get? i = some m →
      (threaded_mobo_reset target l).1.get? i =
        some (run_worker target m)) ∧
    ((threaded_mobo_reset target l).2 = [] ↔
      ∀ o ∈ (threaded_mobo_reset target l).1, o = none) ∧
    (∀ e, some e ∈ (threaded_mobo_reset target l).1 →
      e ∈ (threaded_mobo_reset target l).2) := by
  refine ⟨by simp [threaded_mobo_reset], ?_, ?_, ?_⟩
  · intro i m hm
    rw [List.get?_eq_getElem?] at hm
    simp [threaded_mobo_reset, List.get?_eq_getElem?, List.getElem?_map, hm]
  · rw [threaded_mobo_reset]
    simp [List.filterMap_eq_nil_iff]
  · intro e he
    rw [threaded_mobo_reset] at he ⊢
    exact List.mem_filterMap.mpr ⟨some e, he, rfl⟩

/-- C7 witness: three chassis where chassis 2 raises: all three workers
run, the slots are the per-worker outcomes, and the raised exception is
reported. -/
theorem threaded_mobo_reset_join_all_apply :
    (threaded_mobo_reset demo_target [1, 2, 3]).1.length = 3 ∧
    (threaded_mobo_reset demo_target [1, 2, 3]).1.get? 0 =
      some (run_worker demo_target 1) ∧
    (threaded_mobo_reset demo_target [1, 2, 3]).1.get? 1 =
      some (run_worker demo_target 2) ∧
    (threaded_mobo_reset demo_target [1, 2, 3]).1.get? 2 =
      some (run_worker demo_target 3) ∧
    (2 : ℕ) ∈ (threaded_mobo_reset demo_target [1, 2, 3]).2 :=
  ⟨(threaded_mobo_reset_join_all demo_target [1, 2, 3]).1,
   (threaded_mobo_reset_join_all demo_target [1, 2, 3]).2.1 0 1 rfl,
   (threaded_mobo_reset_join_all demo_target [1, 2, 3]).2.1 1 2 rfl,
   (threaded_mobo_reset_join_all demo_target [1, 2, 3]).2.1 2 3 rfl,
   (threaded_mobo_reset_join_all demo_target [1, 2, 3]).2.2.2 2 (by decide)⟩

end TTSMI
